import Mathlib

/-!
Shallow embedding of `src/descriptors/rectangularity/rectangularity.py`.

The program computes five rectangularity descriptors of a binary mask.
Pixel grids are embedded as lists of rows of natural-number pixel values
(`np.sum` sums the raw values; `cv.findContours` treats any non-zero value
as foreground).  Python float arithmetic is embedded as exact real
arithmetic; the fallible operations (`math.sqrt` on a negative argument,
division by zero on pure-Python floats, `contours[0]` on an empty contour
list) are embedded in an `Except` monad over `PyErr`.

The OpenCV / imutils primitives that the source calls (`findContours`,
`cv.moments` of a contour, `arcLength`, `minAreaRect`/`boxPoints`, the
rasterised region of `fillConvexPoly`, `imutils.rotate`) are external
library code, not code of this repository; they are kept as parameters,
bundled in the record `Cv`.  Everything the source itself computes
(`np.sum`, numpy slicing, `cv.boundingRect` of a point list, the fill
overwrite semantics, and all descriptor arithmetic) is embedded concretely.
-/

namespace RectDesc

/-- A binary mask: a grid of pixel values, row major.  A pixel is
foreground iff its value is non-zero (the value itself is kept because
`np.sum` in the source sums raw values, not an indicator). -/
def Mask : Type := List (List Nat)

instance : DecidableEq Mask := by unfold Mask; infer_instance

/-- A contour: a list of integer points `(x, y)` (column, row), as returned
by `cv.findContours`. -/
def Contour : Type := List (Int × Int)

instance : DecidableEq Contour := by unfold Contour; infer_instance

/-- Errors observable from the Python code.  `emptyRegion` models the
`IndexError` raised by `contours[0]` when `cv.findContours` returns no
contour (the failure the spec names `EmptyRegion`); `zeroDivision` models
Python `ZeroDivisionError`; `mathDomain` models the `ValueError` raised by
`math.sqrt` on a negative argument. -/
inductive PyErr where
  | emptyRegion : PyErr
  | zeroDivision : PyErr
  | mathDomain : PyErr
deriving DecidableEq, Repr

/-- The second-order moment set read by `get_sides_based_on_moments` from
the dictionary that `cv.moments` returns for a contour. -/
structure MomentSet where
  m00 : ℝ
  mu20 : ℝ
  mu02 : ℝ
  mu11 : ℝ

/-- `np.sum(image)`: the sum of all pixel values of the grid. -/
def npSum (m : Mask) : Nat := (List.map List.sum m).sum

/-- Numpy slice `m[r0:r1, c0:c1]` of a 2-D array: rows `r0 .. r1-1`,
columns `c0 .. c1-1`.  The indices produced by `cv.boundingRect` are
non-negative, so the negative-index wrap-around of numpy is not modelled. -/
def npSlice (m : Mask) (r0 r1 c0 c1 : Int) : Mask :=
  List.map (fun row => List.take (c1 - c0).toNat (List.drop c0.toNat row))
    (List.take (r1 - r0).toNat (List.drop r0.toNat m))

/-- `cv.boundingRect(cnt)`: the upright bounding box `(x, y, w, h)` of a
list of integer points, with `x`/`y` the minimal coordinates and `w`/`h`
extent plus one. -/
def boundingRect (cnt : Contour) : Int × Int × Int × Int :=
  match cnt with
  | [] => (0, 0, 0, 0)
  | p :: ps =>
    let xmin := List.foldl (fun a q => min a q.1) p.1 ps
    let ymin := List.foldl (fun a q => min a q.2) p.2 ps
    let xmax := List.foldl (fun a q => max a q.1) p.1 ps
    let ymax := List.foldl (fun a q => max a q.2) p.2 ps
    (xmin, ymin, xmax - xmin + 1, ymax - ymin + 1)

/-- Lines 137-138 and 141 of the source (also 168-169 and 172):
`x, y, w, h = cv.boundingRect(cnt)`, `box_image = image[x:w, y:h]`,
`A2 = np.sum(box_image)`.  The slice takes rows `x .. w-1` and columns
`y .. h-1`, exactly as written in the source. -/
def clipSum (image : Mask) (cnt : Contour) : Nat :=
  match boundingRect cnt with
  | (x, y, w, h) => npSum (npSlice image x w y h)

/-- The value the spec ascribes to `A2`: the sum of the foreground pixels
of the mask lying inside the axis-aligned bounding box of the contour,
that is rows `y .. y+h-1` and columns `x .. x+w-1`.  This definition
follows the words of the spec and exists to be compared with `clipSum`. -/
def specClippedSum (image : Mask) (cnt : Contour) : Nat :=
  match boundingRect cnt with
  | (x, y, w, h) => npSum (npSlice image y (y + h) x (x + w))

/-- `cv.fillConvexPoly(m, box, 1)` writes the value `1` on every pixel of
the rasterised region of the polygon `box` and leaves all other pixels
unchanged.  Which pixels the rasterisation covers is external OpenCV
behaviour, supplied by the predicate `ins` (a field of `Cv`). -/
def fillPoly (ins : List (Int × Int) → Int × Int → Bool) (m : Mask)
    (box : List (Int × Int)) : Mask :=
  List.map
    (fun yr =>
      List.map
        (fun xv => if ins box ((xv.1 : Int), (yr.1 : Int)) then 1 else xv.2)
        (List.enum yr.2))
    (List.enum m)

/-- The external OpenCV / imutils primitives used by the source, as a
parameter record: the contour list of `cv.findContours`, the moment
dictionary of `cv.moments` on a contour, `cv.arcLength(cnt, True)`, the
integer corner points `np.int0(cv.boxPoints(cv.minAreaRect(cnt)))`, the
rasterised region of `cv.fillConvexPoly`, and `imutils.rotate(image, 45)`. -/
structure Cv where
  contours : Mask → List Contour
  contourMoments : Contour → MomentSet
  arcLength : Contour → ℝ
  minAreaRectBox : Contour → List (Int × Int)
  inside : List (Int × Int) → Int × Int → Bool
  rotate45 : Mask → Mask

/-- `get_contour` (lines 203-215): takes the first contour returned by
`cv.findContours`; on an all-zero mask the contour list is empty and
`contours[0]` raises (the `EmptyRegion` failure).  The diagnostic print
for more than one contour has no effect on the result and is dropped. -/
def get_contour (cv : Cv) (image : Mask) : Except PyErr Contour :=
  match cv.contours image with
  | [] => .error .emptyRegion
  | c :: _ => .ok c

/-- `get_mbr_areas` (lines 100-121).  The second component of the result
is the content of the buffer the caller passed, after the call: the source
takes `image = image.copy()` before `cv.fillConvexPoly`, so the fill
writes on the private copy and the caller-visible buffer is returned
unchanged. -/
def get_mbr_areas (cv : Cv) (image : Mask) : Except PyErr (Nat × Nat) × Mask :=
  match get_contour cv image with
  | .error e => (.error e, image)
  | .ok cnt =>
    let box := cv.minAreaRectBox cnt
    let region_area := npSum image
    let copy := image
    let filled := fillPoly cv.inside copy box
    let mbr_area := npSum filled
    (.ok (region_area, mbr_area), image)

/-- `math.sqrt`: raises `ValueError` (math domain error) on a negative
argument, otherwise returns the real square root. -/
noncomputable def msqrt (x : ℝ) : Except PyErr ℝ :=
  if x < 0 then .error .mathDomain else .ok (Real.sqrt x)

/-- Python float division `a / b`: raises `ZeroDivisionError` when the
denominator is zero. -/
noncomputable def pydiv (a b : ℝ) : Except PyErr ℝ :=
  if b = 0 then .error .zeroDivision else .ok (a / b)

/-- Exact-rational division with Python semantics: `ZeroDivisionError`
on a zero denominator. -/
def pydivQ (a b : ℚ) : Except PyErr ℚ :=
  if b = 0 then .error .zeroDivision else .ok (a / b)

/-- `get_sides_based_on_moments` (lines 186-200): from a moment set with
`m00 != 0`, the sides
`a = sqrt(6 * (mu20 + mu02 + sqrt((mu20-mu02)^2 + 4*mu11^2)) / m00)` and
`b = sqrt(6 * (mu20 + mu02 - sqrt((mu20-mu02)^2 + 4*mu11^2)) / m00)`;
`(0, 0)` when `m00 == 0`.  The source computes the inner square root twice,
once for each side; the division by `m00` is guarded by the branch. -/
noncomputable def get_sides_based_on_moments (M : MomentSet) :
    Except PyErr (ℝ × ℝ) :=
  if M.m00 ≠ 0 then
    match msqrt ((M.mu20 - M.mu02) ^ 2 + 4 * M.mu11 ^ 2) with
    | .error e => .error e
    | .ok d1 =>
      match msqrt (6 * (M.mu20 + M.mu02 + d1) / M.m00) with
      | .error e => .error e
      | .ok a =>
        match msqrt ((M.mu20 - M.mu02) ^ 2 + 4 * M.mu11 ^ 2) with
        | .error e => .error e
        | .ok d2 =>
          match msqrt (6 * (M.mu20 + M.mu02 - d2) / M.m00) with
          | .error e => .error e
          | .ok b => .ok (a, b)
  else .ok (0, 0)

/-- `get_rectangular_discrepancy_descriptor` (lines 124-156): contour,
moment sides `(a, b)`, the (mis-)sliced clipped region `A2`, complete
region `A1`, rectangle area `A3 = a*b`; returns `0` when `A3 == 0`, else
`|1 - (R + D)/A3|` clamped to at most `1`.  The division is guarded by
the `B == 0` check, so plain division is faithful. -/
noncomputable def get_rectangular_discrepancy_descriptor (cv : Cv)
    (image : Mask) : Except PyErr ℝ :=
  match get_contour cv image with
  | .error e => .error e
  | .ok cnt =>
    match get_sides_based_on_moments (cv.contourMoments cnt) with
    | .error e => .error e
    | .ok ab =>
      let A1 : ℝ := (npSum image : ℝ)
      let A2 : ℝ := (clipSum image cnt : ℝ)
      let A3 : ℝ := ab.1 * ab.2
      let R := A3 - A2
      let D := A1 - A2
      let B := A3
      if B = 0 then .ok 0
      else
        let R_D := |1 - (R + D) / B|
        if R_D > 1 then .ok 1 else .ok R_D

/-- `get_robust_mbr_discrepancy` (lines 159-183): like the rectangular
discrepancy but normalised by the rasterised MBR area `I = mbr_area`.
The second component is the caller-visible buffer after the call (the
only write happens inside `get_mbr_areas`, on its private copy).  The
denominator `I` is a numpy integer in the source; on the (unreachable
for a non-empty mask) case `I = 0` numpy yields an infinity rather than
raising, and the subsequent `R_R > 1` clamp returns `1` either way, which
is also the value the total Lean division produces there. -/
noncomputable def get_robust_mbr_discrepancy (cv : Cv) (image : Mask) :
    Except PyErr ℝ × Mask :=
  match get_contour cv image with
  | .error e => (.error e, image)
  | .ok cnt =>
    match get_mbr_areas cv image with
    | (.error e, buf) => (.error e, buf)
    | (.ok areas, buf) =>
      match get_sides_based_on_moments (cv.contourMoments cnt) with
      | .error e => (.error e, buf)
      | .ok ab =>
        let A1 : ℝ := (areas.1 : ℝ)
        let A2 : ℝ := (clipSum image cnt : ℝ)
        let A3 : ℝ := ab.1 * ab.2
        let R := A3 - A2
        let D := A1 - A2
        let I : ℝ := (areas.2 : ℝ)
        let R_R := |1 - (R + D) / I|
        if R_R > 1 then (.ok 1, buf) else (.ok R_R, buf)

/-- Lines 70-82 of the source, the arithmetic of the Agreement method
after `a1`, `b1`, `A = np.sum(image)` and `P = cv.arcLength(cnt, True)`
are in hand: candidate roots `a2_1 = (P + sqrt(|P^2 - 16A|))/4` and
`a2_2 = (P - sqrt(|P^2 - 16A|))/4`; `0` when either is negative, else
the larger root becomes `a2`, `b2 = A/a2`, and the score is `1 - R/2`
with `R = |a1-a2|/(a1+a2) + |b1-b2|/(b1+b2)`.  `b2 = A / a2` divides a
numpy integer by a float (numpy semantics, no raise; `a2 > 0` on every
path reachable from a non-empty mask), while the two terms of `R` are
pure-Python float divisions, embedded with `pydiv`. -/
noncomputable def agreementTail (a1 b1 A P : ℝ) : Except PyErr ℝ :=
  match msqrt |P ^ 2 - 16 * A| with
  | .error e => .error e
  | .ok s =>
    let a2_1 := (P + s) / 4
    let a2_2 := (P - s) / 4
    if a2_1 < 0 ∨ a2_2 < 0 then .ok 0
    else
      let a2 := if a2_1 > a2_2 then a2_1 else a2_2
      let b2 := A / a2
      match pydiv |a1 - a2| (a1 + a2) with
      | .error e => .error e
      | .ok t1 =>
        match pydiv |b1 - b2| (b1 + b2) with
        | .error e => .error e
        | .ok t2 =>
          let R := t1 + t2
          .ok (1 - R / 2)

/-- The Agreement method branch (lines 54-82): contour, moment sides
`(a1, b1)` from `cv.moments(cnt)`, then the root arithmetic of
`agreementTail` on `A = np.sum(image)` and `P = cv.arcLength(cnt, True)`. -/
noncomputable def agreementDescriptor (cv : Cv) (image : Mask) :
    Except PyErr ℝ :=
  match get_contour cv image with
  | .error e => .error e
  | .ok cnt =>
    match get_sides_based_on_moments (cv.contourMoments cnt) with
    | .error e => .error e
    | .ok ab => agreementTail ab.1 ab.2 (npSum image : ℝ) (cv.arcLength cnt)

/-- Raw image moment `m_pq = sum of value * x^p * y^q` over the grid
(`x` the column index, `y` the row index). -/
def rawMoment (image : Mask) (p q : ℕ) : ℚ :=
  (List.map
    (fun yr =>
      (List.map
        (fun xv => (xv.2 : ℚ) * (xv.1 : ℚ) ^ p * (yr.1 : ℚ) ^ q)
        (List.enum yr.2)).sum)
    (List.enum image)).sum

/-- The moment dictionary of the `moments` helper, restricted to the
fields the descriptor code reads. -/
structure MomentsQ where
  m00 : ℚ
  m10 : ℚ
  m01 : ℚ
  mu22 : ℚ

/-- Modelled from the spec: the helper `descriptors.utils.moments` is not
under `src/`.  Per section 4.2 and the data model, it computes the raw
moments `m_pq` by the standard image-moment definitions (`m00` is the
total foreground sum, the region area) and the central moments about the
centroid, up to the fourth-order product moment
`mu22 = sum of value * (x - m10/m00)^2 * (y - m01/m00)^2`.  The centroid
division is exact rational division (total, with `q/0 = 0`); on an
all-zero mask every sum is zero, so `mu22 = 0` and the observable
zero-division failure of the Moments method happens at the `R_M`
division in `rectangularity` itself. -/
def moments (image : Mask) : MomentsQ :=
  let m00 : ℚ := (npSum image : ℚ)
  let m10 := rawMoment image 1 0
  let m01 := rawMoment image 0 1
  let xbar := m10 / m00
  let ybar := m01 / m00
  let mu22 :=
    (List.map
      (fun yr =>
        (List.map
          (fun xv => (xv.2 : ℚ) * ((xv.1 : ℚ) - xbar) ^ 2 * ((yr.1 : ℚ) - ybar) ^ 2)
          (List.enum yr.2)).sum)
      (List.enum image)).sum
  ⟨m00, m10, m01, mu22⟩

/-- The raw Moments-method ratio `R_M = 144 * mu22 / m00^3` (line 89),
as an exact rational. -/
def rawRM (image : Mask) : ℚ :=
  144 * (moments image).mu22 / ((moments image).m00 ^ 3)

/-- `rectangularity` (lines 9-97): dispatch over the method identifier.
The first component is the returned value (`none` models the silent
`return None` of the final `else`, which only prints "Wrong method.");
the second component is the content of the caller's mask buffer after the
call. -/
noncomputable def rectangularity (cv : Cv) (image : Mask) (method : String) :
    Except PyErr (Option ℝ) × Mask :=
  if method = "r_b" ∨ method = "Minimum Bounding Rectangle (MBR)" ∨ method = "mbr" then
    match get_mbr_areas cv image with
    | (.error e, buf) => (.error e, buf)
    | (.ok areas, buf) => (.ok (some ((areas.1 : ℝ) / (areas.2 : ℝ))), buf)
  else if method = "r_d" ∨ method = "Rectangular Discrepancy" then
    let rotated := cv.rotate45 image
    match get_rectangular_discrepancy_descriptor cv image with
    | .error e => (.error e, image)
    | .ok s =>
      match get_rectangular_discrepancy_descriptor cv rotated with
      | .error e => (.error e, image)
      | .ok r => (.ok (some (if s > r then s else r)), image)
  else if method = "r_r" ∨ method = "Robust MBR" then
    let rotated := cv.rotate45 image
    match (get_robust_mbr_discrepancy cv image).1 with
    | .error e => (.error e, (get_robust_mbr_discrepancy cv image).2)
    | .ok s =>
      match (get_robust_mbr_discrepancy cv rotated).1 with
      | .error e => (.error e, (get_robust_mbr_discrepancy cv image).2)
      | .ok r =>
        (.ok (some (if s > r then s else r)), (get_robust_mbr_discrepancy cv image).2)
  else if method = "r_a" ∨ method = "Agreement method" then
    (match agreementDescriptor cv image with
     | .error e => .error e
     | .ok v => .ok (some v), image)
  else if method = "r_m" ∨ method = "Moments method" then
    (match pydivQ (144 * (moments image).mu22) ((moments image).m00 ^ 3) with
     | .error e => .error e
     | .ok R_M =>
       if R_M ≤ 1 then .ok (some ((R_M : ℝ)))
       else
         match pydivQ 1 R_M with
         | .error e => .error e
         | .ok inv => .ok (some ((inv : ℝ))), image)
  else
    (.ok none, image)

instance {e a : Type} [DecidableEq e] [DecidableEq a] : DecidableEq (Except e a) := fun
  | .error x, .error y =>
    decidable_of_iff (x = y) ⟨fun h => by rw [h], fun h => by cases h; rfl⟩
  | .error _, .ok _ => isFalse (fun h => Except.noConfusion h)
  | .ok _, .error _ => isFalse (fun h => Except.noConfusion h)
  | .ok x, .ok y =>
    decidable_of_iff (x = y) ⟨fun h => by rw [h], fun h => by cases h; rfl⟩

/-- A concrete instantiation of the external primitives, faithful to the
real libraries on the one-pixel masks it is used with: `cv.findContours`
returns one single-point contour for a non-empty 1x1 mask and no contour
for an all-zero mask; `cv.moments` of a single-point contour is
identically zero (a degenerate polygon has zero area and zero central
moments); `cv.arcLength` of a single point is `0`; `cv.minAreaRect` of a
single point degenerates to that point, so the four box corners coincide
with it and `cv.fillConvexPoly` rasterises exactly that pixel. -/
noncomputable def cvA : Cv where
  contours := fun m => if npSum m = 0 then [] else [[(0, 0)]]
  contourMoments := fun _ => ⟨0, 0, 0, 0⟩
  arcLength := fun _ => 0
  minAreaRectBox := fun _ => [(0, 0), (0, 0), (0, 0), (0, 0)]
  inside := fun box p => decide (p ∈ box)
  rotate45 := id

/-- A concrete instantiation of the external primitives, faithful to the
real libraries on the 2x2 all-ones mask it is used with: `cv.findContours`
returns the four pixel corners as the single exterior contour;
`cv.moments` of that unit-square polygon has area `m00 = 1` and central
moments `mu20 = mu02 = 1/12`, `mu11 = 0`; `cv.arcLength` of the closed
square is `4`. -/
noncomputable def cvB : Cv where
  contours := fun m => if npSum m = 0 then [] else [[(0, 0), (0, 1), (1, 1), (1, 0)]]
  contourMoments := fun _ => ⟨1, 1/12, 1/12, 0⟩
  arcLength := fun _ => 4
  minAreaRectBox := fun _ => [(0, 0), (0, 1), (1, 1), (1, 0)]
  inside := fun box p => decide (p ∈ box)
  rotate45 := id

/-- The 2x2 all-ones mask (a filled square). -/
def sqMask : Mask := [[1, 1], [1, 1]]

/-- A 4x4 mask whose foreground is the 2x2 block at rows 1..2 and
columns 1..2. -/
def c2mask : Mask := [[0, 0, 0, 0], [0, 1, 1, 0], [0, 1, 1, 0], [0, 0, 0, 0]]

/-- The contour `cv.findContours` extracts from `c2mask` (points as
`(x, y)` = (column, row)): the four corner pixels of the block, so its
bounding box is `x = 1, y = 1, w = 2, h = 2`. -/
def c2cnt : Contour := [(1, 1), (1, 2), (2, 2), (2, 1)]

theorem msqrt_zero : msqrt 0 = .ok 0 := by
  unfold msqrt; rw [if_neg (by norm_num)]; rw [Real.sqrt_zero]

theorem msqrt_one : msqrt 1 = .ok 1 := by
  unfold msqrt; rw [if_neg (by norm_num)]; rw [Real.sqrt_one]

theorem msqrt_ok (x v : ℝ) (h : msqrt x = .ok v) : v = Real.sqrt x := by
  unfold msqrt at h
  split_ifs at h
  exact (Except.ok.inj h).symm

theorem sides_cvB : get_sides_based_on_moments ⟨1, 1/12, 1/12, 0⟩ = .ok (1, 1) := by
  unfold get_sides_based_on_moments
  rw [if_pos (by norm_num : ((⟨1, 1/12, 1/12, 0⟩ : MomentSet).m00 ≠ 0))]
  have h0 : ((⟨1, 1/12, 1/12, 0⟩ : MomentSet).mu20 - (⟨1, 1/12, 1/12, 0⟩ : MomentSet).mu02) ^ 2
      + 4 * (⟨1, 1/12, 1/12, 0⟩ : MomentSet).mu11 ^ 2 = 0 := by norm_num
  have h1 : 6 * ((⟨1, 1/12, 1/12, 0⟩ : MomentSet).mu20
      + (⟨1, 1/12, 1/12, 0⟩ : MomentSet).mu02 + 0) / (⟨1, 1/12, 1/12, 0⟩ : MomentSet).m00
      = 1 := by norm_num
  have h2 : 6 * ((⟨1, 1/12, 1/12, 0⟩ : MomentSet).mu20
      + (⟨1, 1/12, 1/12, 0⟩ : MomentSet).mu02 - 0) / (⟨1, 1/12, 1/12, 0⟩ : MomentSet).m00
      = 1 := by norm_num
  simp only [h0, msqrt_zero, h1, h2, msqrt_one]

theorem sides_zero : get_sides_based_on_moments ⟨0, 0, 0, 0⟩ = .ok (0, 0) := by
  unfold get_sides_based_on_moments
  rw [if_neg (by norm_num : ¬((⟨0, 0, 0, 0⟩ : MomentSet).m00 ≠ 0))]

theorem tail_sq_zero : agreementTail 1 1 4 4 = .ok 0 := by
  unfold agreementTail
  have habs : |(4:ℝ) ^ 2 - 16 * 4| = 48 := by norm_num
  have hm : msqrt 48 = .ok (Real.sqrt 48) := by
    unfold msqrt; rw [if_neg (by norm_num)]
  have hcond : ((4:ℝ) + Real.sqrt 48) / 4 < 0 ∨ ((4:ℝ) - Real.sqrt 48) / 4 < 0 := by
    right
    have h48 : (4:ℝ) < Real.sqrt 48 := by
      rw [Real.lt_sqrt (by norm_num)]; norm_num
    nlinarith
  simp only [habs, hm]
  rw [if_pos hcond]

theorem get_mbr_areas_buf (cv : Cv) (m : Mask) : (get_mbr_areas cv m).2 = m := by
  unfold get_mbr_areas
  rcases hc : get_contour cv m with e | cnt <;> simp [hc]

theorem get_robust_buf (cv : Cv) (m : Mask) :
    (get_robust_mbr_discrepancy cv m).2 = m := by
  unfold get_robust_mbr_discrepancy
  rcases hc : get_contour cv m with e | cnt
  · simp [hc]
  · simp only [hc]
    rcases hp : get_mbr_areas cv m with ⟨res, buf⟩
    have hbuf : buf = m := by
      have h2 := get_mbr_areas_buf cv m
      rw [hp] at h2; exact h2
    cases res
    · simp [hp, hbuf]
    · simp only [hp]
      rcases hs : get_sides_based_on_moments (cv.contourMoments cnt) with e | ab
      · simp [hs, hbuf]
      · simp only [hs]
        split_ifs <;> simp [hbuf]

/-- C1: the claim says every one of the five methods returns a score in
[0, 1] for every valid (non-empty) binary mask.  The data model admits
any non-zero pixel value as foreground, but `np.sum(image)` sums the raw
values while `cv.fillConvexPoly(..., 1)` writes ones, so on the valid
one-pixel mask of value 2 the MBR method returns
`region_area / mbr_area = 2 / 1 = 2`, outside [0, 1] and contrary to the
docstring of `rectangularity`.  This theorem evaluates the code at that
failing input. -/
theorem C1_mbr_score_exceeds_one :
    (rectangularity cvA [[2]] "mbr").1 = .ok (some 2)
    ∧ ¬((0:ℝ) ≤ 2 ∧ (2:ℝ) ≤ 1) := by
  constructor
  · have h1 : get_mbr_areas cvA [[2]] = (.ok (2, 1), [[2]]) := by decide
    unfold rectangularity
    rw [if_pos (by decide : ("mbr" = "r_b" ∨ "mbr" = "Minimum Bounding Rectangle (MBR)"
      ∨ "mbr" = "mbr"))]
    rw [h1]
    norm_num
  · norm_num

/-- C2: the claim says `A2` is the sum of the foreground pixels inside
the axis-aligned bounding box of the contour.  The source slices
`image[x:w, y:h]` (rows `x .. w-1`, columns `y .. h-1`) instead of rows
`y .. y+h-1` and columns `x .. x+w-1`; on a 4x4 mask whose foreground
is the 2x2 block at offset (1, 1) the bounding box is
`x = 1, y = 1, w = 2, h = 2`, the code sums the single pixel
`image[1:2, 1:2]` and gets 1, while the foreground inside the box sums
to 4. -/
theorem C2_clipped_region_mismatch :
    clipSum c2mask c2cnt = 1 ∧ specClippedSum c2mask c2cnt = 4
    ∧ clipSum c2mask c2cnt ≠ specClippedSum c2mask c2cnt := by decide

/-- C3: the claim says an unrecognized method identifier is reported to
the caller as an `InvalidMethod` error and nothing is silently returned.
The final `else` of `rectangularity` only prints "Wrong method." and
falls off the end of the function, so the caller receives `None` and no
error: the call with method `"bogus"` returns `.ok none`. -/
theorem C3_unknown_method_silent_none :
    (rectangularity cvA [[1]] "bogus").1 = .ok none := by
  unfold rectangularity
  rw [if_neg (by decide), if_neg (by decide), if_neg (by decide), if_neg (by decide),
    if_neg (by decide)]

/-- C5: the claim says every method returns a defined number in [0, 1]
on every non-empty geometrically degenerate mask (zero area, zero
perimeter, or a single pixel).  On the single-pixel mask of value 3 the
MBR method returns `3 / 1 = 3`, outside [0, 1], because `np.sum` sums
raw pixel values while the MBR is rasterised with ones.  This theorem
evaluates the code at that degenerate failing input. -/
theorem C5_degenerate_pixel_score_exceeds_one :
    (rectangularity cvA [[3]] "mbr").1 = .ok (some 3)
    ∧ ¬((0:ℝ) ≤ 3 ∧ (3:ℝ) ≤ 1) := by
  constructor
  · have h1 : get_mbr_areas cvA [[3]] = (.ok (3, 1), [[3]]) := by decide
    unfold rectangularity
    rw [if_pos (by decide : ("mbr" = "r_b" ∨ "mbr" = "Minimum Bounding Rectangle (MBR)"
      ∨ "mbr" = "mbr"))]
    rw [h1]
    norm_num
  · norm_num

/-- C4 counterexample: the claim says the Agreement method returns 0
exactly when both candidate roots `a2_1` and `a2_2` are negative.  On
the 2x2 filled square (`A = 4`, `P = 4`) the code returns 0, yet the
first root `a2_1 = (4 + sqrt(|16 - 64|))/4` is non-negative, so the two
roots are not both negative and the biconditional fails: the source
tests `a2_1 < 0 or a2_2 < 0`, not `and`. -/
theorem C4_agreement_zero_roots_not_both_negative :
    (rectangularity cvB sqMask "r_a").1 = .ok (some 0)
    ∧ 0 ≤ ((4:ℝ) + Real.sqrt |(4:ℝ) ^ 2 - 16 * 4|) / 4 := by
  constructor
  · unfold rectangularity
    rw [if_neg (by decide), if_neg (by decide), if_neg (by decide),
      if_pos (by decide : ("r_a" = "r_a" ∨ "r_a" = "Agreement method"))]
    unfold agreementDescriptor
    have hc : get_contour cvB sqMask = .ok [(0, 0), (0, 1), (1, 1), (1, 0)] := by decide
    have hM : cvB.contourMoments [(0, 0), (0, 1), (1, 1), (1, 0)]
        = ⟨1, 1/12, 1/12, 0⟩ := rfl
    have hA : ((npSum sqMask : ℕ) : ℝ) = 4 := by norm_num [npSum, sqMask]
    have hP : cvB.arcLength [(0, 0), (0, 1), (1, 1), (1, 0)] = (4:ℝ) := rfl
    simp only [hc, hM, sides_cvB, hA, hP, tail_sq_zero]
  · positivity

/-- C4 amended: for non-negative side estimates `a1, b1`, non-negative
perimeter `P` and area `A ≥ 1` (always the case at the call site for a
non-empty mask), the Agreement arithmetic returns 0 exactly when at
least one candidate root is negative — equivalently, since
`a2_1 = (P + s)/4` is never negative, exactly when `a2_2 = (P - s)/4`
is negative — and otherwise takes the larger root `a2_1` as `a2`,
`b2 = A/a2`, and returns `1 - R/2`; the second conjunct states that
`a2_1` is indeed the larger of the two roots. -/
theorem C4_agreement_branch (a1 b1 A P : ℝ) (ha1 : 0 ≤ a1) (hb1 : 0 ≤ b1)
    (hP : 0 ≤ P) (hA : 1 ≤ A) :
    (agreementTail a1 b1 A P =
      if (P - Real.sqrt |P ^ 2 - 16 * A|) / 4 < 0 then .ok 0
      else
        .ok (1 - (|a1 - (P + Real.sqrt |P ^ 2 - 16 * A|) / 4|
              / (a1 + (P + Real.sqrt |P ^ 2 - 16 * A|) / 4)
            + |b1 - A / ((P + Real.sqrt |P ^ 2 - 16 * A|) / 4)|
              / (b1 + A / ((P + Real.sqrt |P ^ 2 - 16 * A|) / 4))) / 2))
    ∧ (P - Real.sqrt |P ^ 2 - 16 * A|) / 4 ≤ (P + Real.sqrt |P ^ 2 - 16 * A|) / 4 := by
  have hs0 : 0 ≤ Real.sqrt |P ^ 2 - 16 * A| := Real.sqrt_nonneg _
  constructor
  · unfold agreementTail msqrt
    rw [if_neg (not_lt.2 (abs_nonneg _))]
    simp only
    by_cases hlt : (P - Real.sqrt |P ^ 2 - 16 * A|) / 4 < 0
    · rw [if_pos (Or.inr hlt), if_pos hlt]
    · rw [if_neg hlt, if_neg (by push_neg; exact ⟨by positivity, not_lt.1 hlt⟩)]
      have hPs : 0 < P + Real.sqrt |P ^ 2 - 16 * A| := by
        rcases lt_or_eq_of_le (by positivity : (0:ℝ) ≤ P + Real.sqrt |P ^ 2 - 16 * A|) with h | h
        · exact h
        · exfalso
          have hP0 : P = 0 := by nlinarith
          have hsq0 : Real.sqrt |P ^ 2 - 16 * A| = 0 := by nlinarith
          have habs0 : |P ^ 2 - 16 * A| = 0 := by
            have := Real.sq_sqrt (abs_nonneg (P ^ 2 - 16 * A))
            nlinarith
          rw [hP0] at habs0
          have h16 : |(-(16 * A))| = 0 := by
            have e : (0:ℝ) ^ 2 - 16 * A = -(16 * A) := by ring
            rw [e] at habs0; exact habs0
          rw [abs_eq_zero] at h16
          nlinarith
      have ha2 : (if (P + Real.sqrt |P ^ 2 - 16 * A|) / 4 > (P - Real.sqrt |P ^ 2 - 16 * A|) / 4
          then (P + Real.sqrt |P ^ 2 - 16 * A|) / 4
          else (P - Real.sqrt |P ^ 2 - 16 * A|) / 4) = (P + Real.sqrt |P ^ 2 - 16 * A|) / 4 := by
        by_cases hgt : (P + Real.sqrt |P ^ 2 - 16 * A|) / 4 > (P - Real.sqrt |P ^ 2 - 16 * A|) / 4
        · rw [if_pos hgt]
        · rw [if_neg hgt]
          have hle := not_lt.1 hgt
          have h0 : Real.sqrt |P ^ 2 - 16 * A| = 0 := by linarith
          rw [h0]; ring
      rw [ha2]
      have ha2pos : 0 < (P + Real.sqrt |P ^ 2 - 16 * A|) / 4 := by linarith
      have hb2pos : 0 < A / ((P + Real.sqrt |P ^ 2 - 16 * A|) / 4) :=
        div_pos (by linarith) ha2pos
      unfold pydiv
      rw [if_neg (by linarith : ¬(a1 + (P + Real.sqrt |P ^ 2 - 16 * A|) / 4 = 0))]
      simp only
      rw [if_neg (by
        intro h
        have hpos2 : b1 + A / ((P + Real.sqrt |P ^ 2 - 16 * A|) / 4) > 0 := by linarith
        linarith)]
  · linarith

/-- C4 witness: the amended branch description applied at the concrete
input `a1 = b1 = 0`, `A = 1`, `P = 0` (a one-pixel region), where
`a2_2 = (0 - 4)/4 < 0` and the method returns 0. -/
theorem C4_agreement_branch_witness : agreementTail 0 0 1 0 = Except.ok 0 := by
  have h := (C4_agreement_branch 0 0 1 0 le_rfl le_rfl le_rfl le_rfl).1
  rw [h]
  have habs : |(0:ℝ) ^ 2 - 16 * 1| = 16 := by norm_num
  have h16 : Real.sqrt 16 = 4 := by
    rw [show (16:ℝ) = 4 ^ 2 by norm_num, Real.sqrt_sq (by norm_num)]
  rw [habs, h16, if_pos (by norm_num)]

/-- C6 counterexample: the claim says every method fails with
`EmptyRegion` on an all-zero mask.  The Moments branch never extracts a
contour: it divides `144 * mu22` by `m00 ** 3 = 0` and fails with a
zero-division error instead, so for the `"r_m"` method the failure is
not `EmptyRegion`. -/
theorem C6_empty_mask_moments_division_error :
    (rectangularity cvA [[0]] "r_m").1 = .error .zeroDivision
    ∧ (rectangularity cvA [[0]] "r_m").1 ≠ .error .emptyRegion := by
  have h : (rectangularity cvA [[0]] "r_m").1 = .error .zeroDivision := by
    have hq : pydivQ (144 * (moments [[0]]).mu22) ((moments [[0]]).m00 ^ 3)
        = .error .zeroDivision := by decide
    unfold rectangularity
    rw [if_neg (by decide), if_neg (by decide), if_neg (by decide), if_neg (by decide),
      if_pos (by decide : ("r_m" = "r_m" ∨ "r_m" = "Moments method")), hq]
  refine ⟨h, ?_⟩
  rw [h]
  intro hh
  exact PyErr.noConfusion (Except.error.inj hh)

/-- C6 amended: on a mask with no foreground pixel (so `cv.findContours`
returns no contour), the four contour-based methods fail with the
`EmptyRegion` failure under every alias, while the Moments method fails
with a zero-division error. -/
theorem C6_empty_mask_error_taxonomy (cv : Cv) (m : Mask) (h0 : npSum m = 0)
    (hc : cv.contours m = []) :
    (rectangularity cv m "mbr").1 = .error .emptyRegion
    ∧ (rectangularity cv m "r_b").1 = .error .emptyRegion
    ∧ (rectangularity cv m "Minimum Bounding Rectangle (MBR)").1 = .error .emptyRegion
    ∧ (rectangularity cv m "r_d").1 = .error .emptyRegion
    ∧ (rectangularity cv m "Rectangular Discrepancy").1 = .error .emptyRegion
    ∧ (rectangularity cv m "r_r").1 = .error .emptyRegion
    ∧ (rectangularity cv m "Robust MBR").1 = .error .emptyRegion
    ∧ (rectangularity cv m "r_a").1 = .error .emptyRegion
    ∧ (rectangularity cv m "Agreement method").1 = .error .emptyRegion
    ∧ (rectangularity cv m "r_m").1 = .error .zeroDivision
    ∧ (rectangularity cv m "Moments method").1 = .error .zeroDivision := by
  have hcon : get_contour cv m = .error .emptyRegion := by
    unfold get_contour; rw [hc]
  have hmbr : get_mbr_areas cv m = (.error .emptyRegion, m) := by
    unfold get_mbr_areas; rw [hcon]
  have hrd : get_rectangular_discrepancy_descriptor cv m = .error .emptyRegion := by
    unfold get_rectangular_discrepancy_descriptor; rw [hcon]
  have hrr : (get_robust_mbr_discrepancy cv m).1 = .error .emptyRegion := by
    unfold get_robust_mbr_discrepancy; rw [hcon]
  have hra : agreementDescriptor cv m = .error .emptyRegion := by
    unfold agreementDescriptor; rw [hcon]
  have hm00 : (moments m).m00 = 0 := by
    unfold moments; simp only [h0]; norm_num
  have hrm : pydivQ (144 * (moments m).mu22) ((moments m).m00 ^ 3)
      = .error .zeroDivision := by
    unfold pydivQ; rw [if_pos (by rw [hm00]; norm_num)]
  refine ⟨?_, ?_, ?_, ?_, ?_, ?_, ?_, ?_, ?_, ?_, ?_⟩ <;>
    unfold rectangularity
  · rw [if_pos (by decide : ("mbr" = "r_b" ∨ "mbr" = "Minimum Bounding Rectangle (MBR)" ∨ "mbr" = "mbr")), hmbr]
  · rw [if_pos (by decide : ("r_b" = "r_b" ∨ "r_b" = "Minimum Bounding Rectangle (MBR)" ∨ "r_b" = "mbr")), hmbr]
  · rw [if_pos (by decide : ("Minimum Bounding Rectangle (MBR)" = "r_b" ∨ "Minimum Bounding Rectangle (MBR)" = "Minimum Bounding Rectangle (MBR)" ∨ "Minimum Bounding Rectangle (MBR)" = "mbr")), hmbr]
  · rw [if_neg (by decide), if_pos (by decide : ("r_d" = "r_d" ∨ "r_d" = "Rectangular Discrepancy"))]
    rw [hrd]
  · rw [if_neg (by decide), if_pos (by decide : ("Rectangular Discrepancy" = "r_d" ∨ "Rectangular Discrepancy" = "Rectangular Discrepancy"))]
    rw [hrd]
  · rw [if_neg (by decide), if_neg (by decide), if_pos (by decide : ("r_r" = "r_r" ∨ "r_r" = "Robust MBR"))]
    rw [hrr]
  · rw [if_neg (by decide), if_neg (by decide), if_pos (by decide : ("Robust MBR" = "r_r" ∨ "Robust MBR" = "Robust MBR"))]
    rw [hrr]
  · rw [if_neg (by decide), if_neg (by decide), if_neg (by decide),
      if_pos (by decide : ("r_a" = "r_a" ∨ "r_a" = "Agreement method"))]
    rw [hra]
  · rw [if_neg (by decide), if_neg (by decide), if_neg (by decide),
      if_pos (by decide : ("Agreement method" = "r_a" ∨ "Agreement method" = "Agreement method"))]
    rw [hra]
  · rw [if_neg (by decide), if_neg (by decide), if_neg (by decide), if_neg (by decide),
      if_pos (by decide : ("r_m" = "r_m" ∨ "r_m" = "Moments method")), hrm]
  · rw [if_neg (by decide), if_neg (by decide), if_neg (by decide), if_neg (by decide),
      if_pos (by decide : ("Moments method" = "r_m" ∨ "Moments method" = "Moments method")), hrm]

/-- C6 witness: the amended taxonomy applied at the concrete all-zero
1x1 mask with the concrete primitive instantiation `cvA`. -/
theorem C6_empty_mask_error_taxonomy_witness :
    (rectangularity cvA [[0]] "mbr").1 = .error .emptyRegion :=
  (C6_empty_mask_error_taxonomy cvA [[0]] (by decide) (by decide)).1

/-- C7: for both the Rectangular Discrepancy and Robust MBR methods
(under both aliases), whenever the per-orientation descriptor succeeds
on the mask and on its 45-degree rotation, the dispatcher returns the
maximum of the two per-orientation values, which in particular is at
least the 0-degree value. -/
theorem C7_orientation_max (cv : Cv) (m : Mask) (s r s2 r2 : ℝ)
    (hs : get_rectangular_discrepancy_descriptor cv m = .ok s)
    (hr : get_rectangular_discrepancy_descriptor cv (cv.rotate45 m) = .ok r)
    (hs2 : (get_robust_mbr_discrepancy cv m).1 = .ok s2)
    (hr2 : (get_robust_mbr_discrepancy cv (cv.rotate45 m)).1 = .ok r2) :
    (rectangularity cv m "r_d").1 = .ok (some (max s r)) ∧ s ≤ max s r
    ∧ (rectangularity cv m "Rectangular Discrepancy").1 = .ok (some (max s r))
    ∧ (rectangularity cv m "r_r").1 = .ok (some (max s2 r2)) ∧ s2 ≤ max s2 r2
    ∧ (rectangularity cv m "Robust MBR").1 = .ok (some (max s2 r2)) := by
  have hmax : ∀ x y : ℝ, (if x > y then x else y) = max x y := by
    intro x y
    rcases le_or_lt x y with h | h
    · rw [if_neg (not_lt.2 h), max_eq_right h]
    · rw [if_pos h, max_eq_left h.le]
  refine ⟨?_, le_max_left s r, ?_, ?_, le_max_left s2 r2, ?_⟩ <;> unfold rectangularity
  · rw [if_neg (by decide), if_pos (by decide : ("r_d" = "r_d" ∨ "r_d" = "Rectangular Discrepancy"))]
    simp only [hs, hr, hmax]
  · rw [if_neg (by decide), if_pos (by decide : ("Rectangular Discrepancy" = "r_d" ∨ "Rectangular Discrepancy" = "Rectangular Discrepancy"))]
    simp only [hs, hr, hmax]
  · rw [if_neg (by decide), if_neg (by decide), if_pos (by decide : ("r_r" = "r_r" ∨ "r_r" = "Robust MBR"))]
    simp only [hs2, hr2, hmax]
  · rw [if_neg (by decide), if_neg (by decide), if_pos (by decide : ("Robust MBR" = "r_r" ∨ "Robust MBR" = "Robust MBR"))]
    simp only [hs2, hr2, hmax]

theorem rd_cvA_one_pixel : get_rectangular_discrepancy_descriptor cvA [[1]] = .ok 0 := by
  unfold get_rectangular_discrepancy_descriptor
  have hc : get_contour cvA [[1]] = .ok [(0, 0)] := by decide
  have hM : cvA.contourMoments [(0, 0)] = ⟨0, 0, 0, 0⟩ := rfl
  simp only [hc, hM, sides_zero]
  norm_num

theorem rr_cvA_one_pixel : (get_robust_mbr_discrepancy cvA [[1]]).1 = .ok 1 := by
  unfold get_robust_mbr_discrepancy
  have hc : get_contour cvA [[1]] = .ok [(0, 0)] := by decide
  have hmbr : get_mbr_areas cvA [[1]] = (.ok (1, 1), [[1]]) := by decide
  have hM : cvA.contourMoments [(0, 0)] = ⟨0, 0, 0, 0⟩ := rfl
  have hclip : clipSum [[1]] [(0, 0)] = 1 := by decide
  simp only [hc, hmbr, hM, sides_zero, hclip]
  norm_num

/-- C7 witness: the maximum-of-orientations property applied at the
one-pixel mask with the concrete primitives `cvA` (whose rotation is
the identity), where the per-orientation values are 0 and 0 for the
Rectangular Discrepancy and 1 and 1 for the Robust MBR. -/
theorem C7_orientation_max_witness :
    (rectangularity cvA [[1]] "r_d").1 = .ok (some (max (0:ℝ) 0))
    ∧ (0:ℝ) ≤ max (0:ℝ) 0
    ∧ (rectangularity cvA [[1]] "r_r").1 = .ok (some (max (1:ℝ) 1)) := by
  have h := C7_orientation_max cvA [[1]] 0 0 1 1 rd_cvA_one_pixel rd_cvA_one_pixel
    rr_cvA_one_pixel rr_cvA_one_pixel
  exact ⟨h.1, h.2.1, h.2.2.2.1⟩

/-- C8: for every mask with non-zero total (the spec-modelled `moments`
helper makes `m00` the total foreground sum), the Moments method
computes the raw ratio `R_M = 144 * mu22 / m00 ** 3` and returns it as
the score when `R_M ≤ 1`, else returns `1 / R_M`; and whenever the raw
ratio exceeds 1, the product of the raw ratio with the returned
reciprocal is exactly 1. -/
theorem C8_moments_fold (cv : Cv) (image : Mask) (h : (moments image).m00 ≠ 0) :
    (rectangularity cv image "r_m").1
      = .ok (some (if rawRM image ≤ 1 then ((rawRM image : ℚ) : ℝ)
          else ((1 / rawRM image : ℚ) : ℝ)))
    ∧ (1 < rawRM image → ((rawRM image : ℚ) : ℝ) * ((1 / rawRM image : ℚ) : ℝ) = 1) := by
  constructor
  · unfold rectangularity
    rw [if_neg (by decide), if_neg (by decide), if_neg (by decide), if_neg (by decide),
      if_pos (by decide : ("r_m" = "r_m" ∨ "r_m" = "Moments method"))]
    have hdiv : pydivQ (144 * (moments image).mu22) ((moments image).m00 ^ 3)
        = .ok (rawRM image) := by
      unfold pydivQ rawRM
      rw [if_neg (pow_ne_zero 3 h)]
    simp only [hdiv]
    by_cases hle : rawRM image ≤ 1
    · rw [if_pos hle, if_pos hle]
    · rw [if_neg hle, if_neg hle]
      have hne : rawRM image ≠ 0 := by
        intro h0; rw [h0] at hle; norm_num at hle
      have hinv : pydivQ 1 (rawRM image) = .ok (1 / rawRM image) := by
        unfold pydivQ; rw [if_neg hne]
      simp only [hinv]
  · intro h1
    have hne : rawRM image ≠ 0 := ne_of_gt (lt_trans zero_lt_one h1)
    push_cast
    field_simp

/-- C8 witness: the Moments fold applied at the one-pixel mask, whose
raw ratio is 0 (the fourth-order central moment of a single pixel
vanishes), so the score is the raw ratio itself. -/
theorem C8_moments_fold_witness : (rectangularity cvA [[1]] "r_m").1 = .ok (some (0:ℝ)) := by
  have h := (C8_moments_fold cvA [[1]] (by decide)).1
  have hr0 : rawRM [[1]] = 0 := by
    norm_num [rawRM, moments, npSum, rawMoment, List.enum, List.enumFrom]
  rw [h, if_pos (by rw [hr0]; norm_num), hr0]
  norm_num

/-- C9: for every mask, every method identifier and every instantiation
of the external primitives, the caller-visible mask buffer after the
call equals the mask passed in: the only write of the pipeline, the
`cv.fillConvexPoly` rasterisation inside `get_mbr_areas`, happens on a
private copy taken by `image.copy()`. -/
theorem C9_input_buffer_unchanged (cv : Cv) (m : Mask) (method : String) :
    (rectangularity cv m method).2 = m ∧ (get_mbr_areas cv m).2 = m := by
  refine ⟨?_, get_mbr_areas_buf cv m⟩
  unfold rectangularity
  split_ifs
  · rcases hp : get_mbr_areas cv m with ⟨res, buf⟩
    have hbuf : buf = m := by
      have h2 := get_mbr_areas_buf cv m
      rw [hp] at h2; exact h2
    cases res <;> simp [hp, hbuf]
  · rcases h1 : get_rectangular_discrepancy_descriptor cv m with e | s
    · simp [h1]
    · rcases h2 : get_rectangular_discrepancy_descriptor cv (cv.rotate45 m) with e | r
      · simp [h1, h2]
      · simp [h1, h2]
  · rcases h1 : (get_robust_mbr_discrepancy cv m).1 with e | s
    · simp [h1, get_robust_buf]
    · rcases h2 : (get_robust_mbr_discrepancy cv (cv.rotate45 m)).1 with e | r
      · simp [h1, h2, get_robust_buf]
      · simp [h1, h2, get_robust_buf]
  · simp
  · simp
  · simp

/-- C10 counterexample: the claim quantifies over every moment set and
asserts `a ≥ b ≥ 0` whenever `m00 != 0` and both square roots are
defined.  For the moment set `m00 = -1, mu20 = -2, mu02 = -1, mu11 = 0`
both roots are defined (`a = sqrt 12`, `b = sqrt 24`) yet `a < b`,
because dividing by a negative `m00` swaps the order of the two
radicands. -/
theorem C10_sides_not_ordered_for_negative_m00 :
    get_sides_based_on_moments ⟨-1, -2, -1, 0⟩ = .ok (Real.sqrt 12, Real.sqrt 24)
    ∧ Real.sqrt 12 < Real.sqrt 24
    ∧ ((⟨-1, -2, -1, 0⟩ : MomentSet).m00 ≠ 0) := by
  refine ⟨?_, Real.sqrt_lt_sqrt (by norm_num) (by norm_num), by norm_num⟩
  unfold get_sides_based_on_moments
  rw [if_pos (by norm_num : ((⟨-1, -2, -1, 0⟩ : MomentSet).m00 ≠ 0))]
  have h0 : ((⟨-1, -2, -1, 0⟩ : MomentSet).mu20 - (⟨-1, -2, -1, 0⟩ : MomentSet).mu02) ^ 2
      + 4 * (⟨-1, -2, -1, 0⟩ : MomentSet).mu11 ^ 2 = 1 := by norm_num
  have ha : 6 * ((⟨-1, -2, -1, 0⟩ : MomentSet).mu20
      + (⟨-1, -2, -1, 0⟩ : MomentSet).mu02 + 1) / (⟨-1, -2, -1, 0⟩ : MomentSet).m00
      = 12 := by norm_num
  have hb : 6 * ((⟨-1, -2, -1, 0⟩ : MomentSet).mu20
      + (⟨-1, -2, -1, 0⟩ : MomentSet).mu02 - 1) / (⟨-1, -2, -1, 0⟩ : MomentSet).m00
      = 24 := by norm_num
  have hma : msqrt 12 = .ok (Real.sqrt 12) := by
    unfold msqrt; rw [if_neg (by norm_num)]
  have hmb2 : msqrt 24 = .ok (Real.sqrt 24) := by
    unfold msqrt; rw [if_neg (by norm_num)]
  simp only [h0, msqrt_one, ha, hb, hma, hmb2]

/-- C10 amended: `get_sides_based_on_moments` returns exactly `(0, 0)`
when `m00 = 0`; and when `m00 > 0` and the computation succeeds (both
square roots defined), the returned pair satisfies `a ≥ b ≥ 0`. -/
theorem C10_sides_ordered (M : MomentSet) :
    (M.m00 = 0 → get_sides_based_on_moments M = .ok (0, 0))
    ∧ (0 < M.m00 → ∀ a b, get_sides_based_on_moments M = .ok (a, b)
        → b ≤ a ∧ 0 ≤ b) := by
  constructor
  · intro h0
    unfold get_sides_based_on_moments
    rw [if_neg (by rw [h0]; simp)]
  · intro hpos a b hab
    unfold get_sides_based_on_moments at hab
    rw [if_pos (ne_of_gt hpos)] at hab
    rcases h1 : msqrt ((M.mu20 - M.mu02) ^ 2 + 4 * M.mu11 ^ 2) with e | d
    · simp only [h1] at hab
      exact Except.noConfusion hab
    · simp only [h1] at hab
      rcases h2 : msqrt (6 * (M.mu20 + M.mu02 + d) / M.m00) with e | av
      · simp only [h2] at hab
        exact Except.noConfusion hab
      · simp only [h2] at hab
        rcases h4 : msqrt (6 * (M.mu20 + M.mu02 - d) / M.m00) with e | bv
        · simp only [h4] at hab
          exact Except.noConfusion hab
        · simp only [h4] at hab
          have hav := msqrt_ok _ _ h2
          have hbv := msqrt_ok _ _ h4
          have hdv := msqrt_ok _ _ h1
          have hinj := Except.ok.inj hab
          have haeq : av = a := congrArg Prod.fst hinj
          have hbeq : bv = b := congrArg Prod.snd hinj
          subst haeq hbeq
          have hd0 : 0 ≤ d := by rw [hdv]; exact Real.sqrt_nonneg _
          constructor
          · rw [hav, hbv]
            apply Real.sqrt_le_sqrt
            rw [div_le_div_iff_of_pos_right hpos]
            linarith
          · rw [hbv]; exact Real.sqrt_nonneg _

/-- C10 witness: the ordering applied at the unit-square moment set
`m00 = 1, mu20 = mu02 = 1/12, mu11 = 0`, whose sides evaluate to
`(1, 1)`, with `1 ≥ 1 ≥ 0`. -/
theorem C10_sides_ordered_witness :
    get_sides_based_on_moments ⟨1, 1/12, 1/12, 0⟩ = .ok (1, 1)
    ∧ ((1:ℝ) ≤ 1 ∧ (0:ℝ) ≤ 1) :=
  ⟨sides_cvB, (C10_sides_ordered ⟨1, 1/12, 1/12, 0⟩).2 (by norm_num) 1 1 sides_cvB⟩

end RectDesc
